import Mathlib

/-!
Verification development for the file-deduplication and copy tool
(Electron main process, `main.js`).

The JavaScript source is shallowly embedded as executable Lean
definitions:

* SHA-256 is modelled as an injective digest: the digest of a byte
  string is the byte string itself, and the digest built by the folder
  signature (which hashes the concatenation `name:size:hash` of the
  name-sorted triples) is modelled as the name-sorted list of triples.
  This is the standard collision-free idealization of a cryptographic
  hash; every claim below is stated modulo SHA-256 collisions.
* The filesystem is a finite association list from absolute paths
  (segment lists) to file contents; directories exist exactly when some
  file lives beneath them, and `mkdir` is a no-op.  `fs.copyFile`
  overwrites an existing destination file, as Node's does.
* The global pause flag is modelled as a schedule `sched : Nat → Bool`
  read at every point where the code checks `state.paused`, together
  with a tick counter threaded through the loops; `sched t` is the
  value of the flag at the t-th check.  A run during which the user
  presses pause once and never resumes is a monotone schedule.
* Per-entry I/O failures (permission errors, races) are not modelled:
  every read of an existing model file succeeds.  The only failure of
  `hashFile` in the model is the `Paused` rejection.
-/

namespace FileDedupTool

/-- Model of `normalizeFolderName` (main.js:53-59): the folder name
truncated at its first underscore, or the whole name if it has none. -/
def normalizeFolderName (s : String) : String :=
  String.mk (s.data.takeWhile (fun c => c ≠ '_'))

/-- Split a string at a separator character; models
`String.prototype.split(path.sep)`.  `splitCharAux c rest acc` holds the
characters of the current segment in `acc`, reversed. -/
def splitCharAux (c : Char) : List Char → List Char → List String
  | [], acc => [String.mk acc.reverse]
  | d :: rest, acc =>
    if d = c then String.mk acc.reverse :: splitCharAux c rest []
    else splitCharAux c rest (d :: acc)

/-- Split a string at a separator character. -/
def splitChar (c : Char) (s : String) : List String := splitCharAux c s.data []

/-- Join path segments with `/`, the way `Array.prototype.join` would. -/
def joinSep (l : List String) : String :=
  match l with
  | [] => ""
  | x :: xs => xs.foldl (fun acc s => acc ++ "/" ++ s) x

/-- Model of Node's `path.join(...segs)`: empty segments are ignored and
the rest are joined with the separator.  (Node additionally normalizes
`.` and `..` segments after joining; that post-pass is a function of the
joined string and is applied identically by the two call sites compared
in this development, so it is omitted.) -/
def pathJoin (segs : List String) : String :=
  joinSep (segs.filter (fun s => s ≠ ""))

/-- Destination folder path as computed by the `start-process` file pass
(main.js:554-562): split the folder-relative path on the separator,
drop empty segments, map `normalizeFolderName` over the segments, and
`path.join` the destination root with the results. -/
def destFolderPathStart (destinationFolder : String) (folderRelativePath : String) : String :=
  if folderRelativePath ≠ "" ∧ folderRelativePath ≠ "." then
    pathJoin (destinationFolder ::
      (((splitChar '/' folderRelativePath).filter (fun p => p ≠ "")).map normalizeFolderName))
  else destinationFolder

/-- Destination folder path as computed by the `resume-process` file
pass (main.js:864-872): identical to `destFolderPathStart` except that
the split segments are not filtered for emptiness before normalizing. -/
def destFolderPathResume (destinationFolder : String) (folderRelativePath : String) : String :=
  if folderRelativePath ≠ "" ∧ folderRelativePath ≠ "." then
    pathJoin (destinationFolder ::
      ((splitChar '/' folderRelativePath).map normalizeFolderName))
  else destinationFolder

/-- File content; a byte string.  SHA-256 of the content is modelled as
the content itself (injective digest idealization). -/
abbrev Content := String

/-- Model of the digest produced by `crypto.createHash('sha256')` over a
file's bytes. -/
def hashContent (c : Content) : String := c

/-- The `size:hash` pair the code uses as its content key
(`` `${stats.size}:${hash}` ``). -/
structure ContentKey where
  size : Nat
  hash : String
deriving DecidableEq, Repr

/-- ContentKey of a file content. -/
def contentKey (c : Content) : ContentKey := ⟨c.length, hashContent c⟩

/-!
### Chunk-level model of `hashFile` (main.js:61-82)

`hashFile` streams the file; each `data` event folds the chunk into the
running digest only when the pause flag is down at that moment, and the
`end` event resolves with the digest when the flag is down and rejects
with `Paused` when it is up.  `chunks` is the list of chunks delivered
by the stream and `sched k` the value of `state.paused` observed at the
k-th `data` event (`k < chunks.length`) and at the `end` event
(`k = chunks.length`).
-/

/-- The digest of a complete, uninterrupted read: all chunks folded in
order. -/
def fullDigest (chunks : List Content) : String :=
  hashContent (chunks.foldl (fun acc c => acc ++ c) "")

/-- The running digest of the `data` events: the chunk delivered at
event index `k` is folded in exactly when the pause flag is down at that
event. -/
def hashFoldAux (sched : Nat → Bool) : List Content → Nat → String → String
  | [], _, acc => acc
  | c :: cs, k, acc => hashFoldAux sched cs (k + 1) (if sched k then acc else acc ++ c)

/-- Chunk-level model of `hashFile`: `none` models the `Paused`
rejection, `some d` a resolution with digest `d`. -/
def hashFileChunks (chunks : List Content) (sched : Nat → Bool) : Option String :=
  if sched chunks.length then none
  else some (hashContent (hashFoldAux sched chunks 0 ""))

/-- A pause schedule is monotone when the flag, once raised, stays
raised: the user pressed pause and did not resume. -/
def MonotoneSched (sched : Nat → Bool) : Prop :=
  ∀ i j : Nat, i ≤ j → sched i = true → sched j = true

/-!
### Filesystem model

A filesystem is a finite association list from absolute paths (segment
lists) to file contents.  Directories are implicit: a directory exists
exactly when some file lives strictly beneath it, so `fs.mkdir` is a
no-op.  `readdir` enumerates children in the order of first occurrence
in the list, modelling an arbitrary but fixed filesystem enumeration
order.
-/

/-- An absolute path, as a list of segments. -/
abbrev FilePath2 := List String

/-- The filesystem: a finite map from file paths to contents, as an
association list whose order fixes `readdir` enumeration order. -/
abbrev ModelFS := List (FilePath2 × Content)

/-- Content of the file at `p`, if `p` is a file. -/
def fsLookup (fs : ModelFS) (p : FilePath2) : Option Content :=
  (fs.find? (fun e => e.fst = p)).map Prod.snd

/-- Does a file exist exactly at `p`? -/
def fsIsFile (fs : ModelFS) (p : FilePath2) : Bool := (fsLookup fs p).isSome

/-- If `p` lies strictly below `dir`, the name of the child of `dir` on
the way to `p`; `none` otherwise. -/
def childNameOf (dir : FilePath2) (p : FilePath2) : Option String :=
  if List.isPrefixOf dir p then (p.drop dir.length).head? else none

/-- Does a directory exist at `p` (something lives strictly below it)? -/
def fsIsDir (fs : ModelFS) (p : FilePath2) : Bool :=
  fs.any (fun e => (childNameOf p e.fst).isSome)

/-- Keep the first occurrence of each element, dropping later ones. -/
def dedupAux (seen : List String) : List String → List String
  | [] => []
  | x :: xs =>
    if seen.contains x then dedupAux seen xs
    else x :: dedupAux (x :: seen) xs

/-- Keep the first occurrence of each element. -/
def dedupKeepFirst (l : List String) : List String := dedupAux [] l

/-- Model of `fs.readdir(dir)`: the direct child names (files and
directories) of `dir`, in enumeration order. -/
def fsChildNames (fs : ModelFS) (dir : FilePath2) : List String :=
  dedupKeepFirst (fs.filterMap (fun e => childNameOf dir e.fst))

/-- Write content `c` at path `p`: models `fs.copyFile` into `p`, which
overwrites an existing file at `p`. -/
def fsSetFile (fs : ModelFS) (p : FilePath2) (c : Content) : ModelFS :=
  if fs.any (fun e => e.fst = p) then
    fs.map (fun e => if e.fst = p then (p, c) else e)
  else fs ++ [(p, c)]

/-- All files lying strictly below `dir`, in enumeration order; models a
recursive listing. -/
def fsFilesUnder (fs : ModelFS) (dir : FilePath2) : ModelFS :=
  fs.filter (fun e => (childNameOf dir e.fst).isSome)

/-- Model of `fs.rm(dir, recursive, force)`: remove every file at or
below `dir`. -/
def fsRemoveTree (fs : ModelFS) (dir : FilePath2) : ModelFS :=
  fs.filter (fun e => !(childNameOf dir e.fst).isSome && !(e.fst = dir : Bool))

/-- Loop-level model of `hashFile` (main.js:61-82): one pause check at
the `end` event decides between the digest and the `Paused` rejection
(the chunk-level refinement is `hashFileChunks`).  A missing file is the
stream `error` event.  Returns the result and the advanced tick. -/
def hashFileM (oc : Option Content) (sched : Nat → Bool) (t : Nat) :
    Except Unit String × Nat :=
  match oc with
  | none => (Except.error (), t)
  | some c =>
    if sched t then (Except.error (), t + 1) else (Except.ok (hashContent c), t + 1)

/-!
### Directory scanner (main.js:84-139)
-/

/-- Model of `path.extname(name).toLowerCase().slice(1)`: the characters
after the last dot, lowercased (`""` when the name has no dot). -/
def extOf (name : String) : String :=
  match splitChar '.' name with
  | [] => ""
  | [_] => ""
  | ps => String.mk ((ps.getLastD "").data.map Char.toLower)

/-- The extension filter of the scanner: an empty allowed list admits
every file. -/
def extMatches (allowed : List String) (name : String) : Bool :=
  allowed.isEmpty || allowed.contains (extOf name)

/-- The `fileInfo` record pushed by `scanDirectory` (main.js:110-117). -/
structure FileInfo where
  path : FilePath2
  size : Nat
  name : String
  relativePath : FilePath2
  folderPath : FilePath2
  folderRelativePath : FilePath2
deriving DecidableEq, Repr

/-- The folder record pushed by `scanDirectory` (main.js:127-135).
`relativePath = []` plays the role of the empty string, so the recorded
relative path of a scan root is its base name. -/
structure FolderInfo where
  path : FilePath2
  relativePath : FilePath2
  files : List FileInfo
  subFolders : List FilePath2
  isLeaf : Bool
deriving DecidableEq, Repr

/-- Accumulator threaded through the scan: the flat file list, the
folder list, and the pause tick. -/
structure ScanAcc where
  fileList : List FileInfo
  folderList : List FolderInfo
  t : Nat
deriving Repr

/-- Finalization of one scanned directory (main.js:127-135): record a
folder record when the directory contributed files or subfolders. -/
def finishFolder (acc : ScanAcc) (folderFiles : List FileInfo)
    (subFolders : List FilePath2) (hasSubDirectories : Bool)
    (dirPath : FilePath2) (relativePath : FilePath2) : ScanAcc :=
  if folderFiles ≠ [] ∨ subFolders ≠ [] then
    { acc with folderList := acc.folderList ++
        [{ path := dirPath
           relativePath := if relativePath = [] then [dirPath.getLastD ""] else relativePath
           files := folderFiles
           subFolders := subFolders
           isLeaf := !hasSubDirectories }] }
  else acc

/-- The entry loop of `scanDirectory` (main.js:94-125): one pause check
per entry, a recursive scan (followed by its finalization) for each
subdirectory, a `FileInfo` for each file passing the extension filter.
`names` is the `readdir` snapshot of the current directory and `fuel`
bounds the total number of entries and levels walked. -/
def scanGo (fuel : Nat) (fs : ModelFS) (names : List String)
    (dirPath : FilePath2) (allowed : List String) (relativePath : FilePath2)
    (sourceRoot : FilePath2) (sched : Nat → Bool) (acc : ScanAcc)
    (folderFiles : List FileInfo) (subFolders : List FilePath2)
    (hasSubDirectories : Bool) :
    ScanAcc × List FileInfo × List FilePath2 × Bool :=
  match fuel with
  | 0 => (acc, folderFiles, subFolders, hasSubDirectories)
  | fuel + 1 =>
    match names with
    | [] => (acc, folderFiles, subFolders, hasSubDirectories)
    | n :: ns =>
      if sched acc.t then
        ({ acc with t := acc.t + 1 }, folderFiles, subFolders, hasSubDirectories)
      else
        let acc := { acc with t := acc.t + 1 }
        let fullPath := dirPath ++ [n]
        let relPath := relativePath ++ [n]
        let relativeFromRoot := fullPath.drop sourceRoot.length
        match fsLookup fs fullPath with
        | some c =>
          if extMatches allowed n then
            let fi : FileInfo :=
              { path := fullPath
                size := c.length
                name := n
                relativePath := relativeFromRoot
                folderPath := dirPath
                folderRelativePath := relativeFromRoot.dropLast }
            scanGo fuel fs ns dirPath allowed relativePath sourceRoot sched
              { acc with fileList := acc.fileList ++ [fi] }
              (folderFiles ++ [fi]) subFolders hasSubDirectories
          else
            scanGo fuel fs ns dirPath allowed relativePath sourceRoot sched acc
              folderFiles subFolders hasSubDirectories
        | none =>
          let sub := scanGo fuel fs (fsChildNames fs fullPath) fullPath allowed
            relPath sourceRoot sched acc [] [] false
          let acc := finishFolder sub.fst sub.snd.fst sub.snd.snd.fst sub.snd.snd.snd
            fullPath relPath
          scanGo fuel fs ns dirPath allowed relativePath sourceRoot sched acc
            folderFiles (subFolders ++ [relPath]) true

/-- Model of `scanDirectory` (main.js:84-139): read the directory, walk
its entries, and finally record a folder record when the directory
contributed files or subfolders. -/
def scanDirectory (fuel : Nat) (fs : ModelFS) (dirPath : FilePath2)
    (allowed : List String) (relativePath : FilePath2) (sourceRoot : FilePath2)
    (sched : Nat → Bool) (acc : ScanAcc) : ScanAcc :=
  let r := scanGo fuel fs (fsChildNames fs dirPath) dirPath allowed relativePath
    sourceRoot sched acc [] [] false
  finishFolder r.fst r.snd.fst r.snd.snd.fst r.snd.snd.snd dirPath relativePath

/-!
### Folder signature builder (main.js:141-171, 285-304)
-/

/-- A `{name, size, hash}` triple collected by the signature builders. -/
structure FileSig where
  name : String
  size : Nat
  hash : String
deriving DecidableEq, Repr

/-- Lexicographic comparison of character lists by code point; models
the total order underlying `localeCompare` for the comparator
`(a, b) => a.name.localeCompare(b.name)`. -/
def strLeAux : List Char → List Char → Bool
  | [], _ => true
  | _ :: _, [] => false
  | a :: as, b :: bs =>
    if a.toNat < b.toNat then true
    else if b.toNat < a.toNat then false
    else strLeAux as bs

/-- String comparison used when sorting signature triples by name. -/
def strLe (a b : String) : Bool := strLeAux a.data b.data

/-- Triple comparator: `fileHashes.sort((a, b) => a.name.localeCompare(b.name))`. -/
def sigLe (a b : FileSig) : Bool := strLe a.name b.name

/-- Insert into a sorted list, before the first element not smaller:
one step of a stable sort. -/
def insertBy (le : α → α → Bool) (a : α) : List α → List α
  | [] => [a]
  | b :: l => if le a b then a :: b :: l else b :: insertBy le a l

/-- Stable insertion sort; models `Array.prototype.sort` with a
comparator (stable per the ECMAScript specification). -/
def sortBy (le : α → α → Bool) : List α → List α
  | [] => []
  | a :: l => insertBy le a (sortBy le l)

/-- The digest emitted by both signature builders, which hash the
concatenation `name:size:hash` of the name-sorted triples: modelled as
the name-sorted triple list itself (injective digest idealization). -/
def sigDigest (fileHashes : List FileSig) : List FileSig :=
  sortBy sigLe fileHashes

/-- The `FolderSignature` record returned by `buildFolderSignature`
(main.js:165-170).  The unused `files` field is omitted. -/
structure FolderSignature where
  hash : List FileSig
  fileCount : Nat
  totalSize : Nat
deriving DecidableEq, Repr

/-- The hashing loop of `buildFolderSignature` (main.js:144-156): hash
each direct file of the folder, skipping a file whose hash fails
(`Paused` or unreadable), with one pause check per file before the
hash.  Returns the collected triples and the advanced tick. -/
def collectTriples (fs : ModelFS) (files : List FileInfo) (sched : Nat → Bool)
    (t : Nat) : List FileSig × Nat :=
  match files with
  | [] => ([], t)
  | f :: rest =>
    if sched t then ([], t + 1)
    else
      match hashFileM (fsLookup fs f.path) sched (t + 1) with
      | (Except.error _, t2) => collectTriples fs rest sched t2
      | (Except.ok h, t2) =>
        let r := collectTriples fs rest sched t2
        (⟨f.name, f.size, h⟩ :: r.fst, r.snd)

/-- Model of `buildFolderSignature` (main.js:141-171): collect the
triples of the folder's direct files, sort them by name, and digest
them.  `totalSize` sums the sizes of all listed files, hashed or not,
as the code reduces over `folderInfo.files`. -/
def buildFolderSignature (fs : ModelFS) (folder : FolderInfo) (sched : Nat → Bool)
    (t : Nat) : FolderSignature × Nat :=
  let r := collectTriples fs folder.files sched t
  (⟨sigDigest r.fst, r.fst.length, folder.files.foldl (fun s f => s + f.size) 0⟩, r.snd)

/-- The direct-file records collected by `scanDestinationFolder`
(main.js:236-283) for one destination folder: for each direct file
passing the extension filter, its `{name, size, hash}` triple (a file
whose hash fails is skipped), with one pause check per entry.  The
recursive descent into subfolders only populates the unused `subFolders`
field and is omitted; its pause ticks are not modelled. -/
def scanDestinationDirect (fs : ModelFS) (dirPath : FilePath2)
    (allowed : List String) (sched : Nat → Bool) (t : Nat) : List FileSig × Nat :=
  go (fsChildNames fs dirPath) t
where
  go : List String → Nat → List FileSig × Nat
    | [], t => ([], t)
    | n :: ns, t =>
      if sched t then ([], t + 1)
      else
        let t := t + 1
        match fsLookup fs (dirPath ++ [n]) with
        | some c =>
          if extMatches allowed n then
            match hashFileM (some c) sched t with
            | (Except.error _, t2) => go ns t2
            | (Except.ok h, t2) =>
              let r := go ns t2
              (⟨n, c.length, h⟩ :: r.fst, r.snd)
          else go ns t
        | none => go ns t

/-- Model of `buildDestinationFolderSignature` (main.js:285-304): sort
the collected triples by name and digest them. -/
def buildDestinationFolderSignature (fileHashes : List FileSig) : List FileSig :=
  sigDigest fileHashes

/-!
### Content-aware recursive merge (main.js:199-234)
-/

/-- A completed `fs.copyFile` operation: source path, destination path,
and the ContentKey of the copied content. -/
structure CopyOp where
  src : FilePath2
  dst : FilePath2
  key : ContentKey
deriving DecidableEq, Repr

/-- Result of a merge: the filesystem, the ContentKey map (the mutable
`fileHashMap`, as a list of keys), the tick, and the copies performed in
order. -/
structure MergeResult where
  fs : ModelFS
  map : List ContentKey
  t : Nat
  ops : List CopyOp
deriving Repr

/-- The entry loop of `mergeFolderRecursive` (main.js:204-230): one
pause check per entry (`if (state.paused) break`), then the directory or
file case; a subdirectory is merged recursively (sharing the ContentKey
map), a file is hashed and copied to the same-named destination entry
only when its ContentKey is absent from the map, which is then updated.
`names` is the `readdir` snapshot of the current source directory and
`fuel` bounds the total number of entries and levels walked. -/
def mergeGo (fuel : Nat) (fs : ModelFS) (names : List String)
    (sourcePath destPath : FilePath2) (map : List ContentKey)
    (sched : Nat → Bool) (t : Nat) : MergeResult :=
  match fuel with
  | 0 => ⟨fs, map, t, []⟩
  | fuel + 1 =>
    match names with
    | [] => ⟨fs, map, t, []⟩
    | n :: ns =>
      if sched t then ⟨fs, map, t + 1, []⟩
      else
        let t := t + 1
        let sourceEntry := sourcePath ++ [n]
        let destEntry := destPath ++ [n]
        match fsLookup fs sourceEntry with
        | none =>
          let r1 := mergeGo fuel fs (fsChildNames fs sourceEntry) sourceEntry destEntry
            map sched t
          let r2 := mergeGo fuel r1.fs ns sourcePath destPath r1.map sched r1.t
          ⟨r2.fs, r2.map, r2.t, r1.ops ++ r2.ops⟩
        | some c =>
          match hashFileM (some c) sched t with
          | (Except.error _, t2) => mergeGo fuel fs ns sourcePath destPath map sched t2
          | (Except.ok h, t2) =>
            let key : ContentKey := ⟨c.length, h⟩
            if map.contains key then
              mergeGo fuel fs ns sourcePath destPath map sched t2
            else
              let r := mergeGo fuel (fsSetFile fs destEntry c) ns sourcePath destPath
                (key :: map) sched t2
              ⟨r.fs, r.map, r.t, ⟨sourceEntry, destEntry, key⟩ :: r.ops⟩

/-- Model of `mergeFolderRecursive` (main.js:199-234): create the
destination directory (a filesystem no-op here), read the source
directory once, and walk its entries with `mergeGo`. -/
def mergeFolderRecursive (fuel : Nat) (fs : ModelFS) (sourcePath destPath : FilePath2)
    (map : List ContentKey) (sched : Nat → Bool) (t : Nat) : MergeResult :=
  mergeGo fuel fs (fsChildNames fs sourcePath) sourcePath destPath map sched t

/-!
### Run state and destination indexing (main.js:8-23, 352-404, 784-818)
-/

/-- The aggregate counters (`state.stats`). -/
structure RunStats where
  scanned : Nat
  copied : Nat
  duplicates : Nat
  sizeCopied : Nat
deriving DecidableEq, Repr

/-- One entry of the merge report (`state.folderReport`). -/
structure ReportEntry where
  sourcePath : FilePath2
  destinationPath : FilePath2
  status : String
deriving DecidableEq, Repr

/-- The cross-call mutable run state (main.js:8-23).  `paused` is
carried by the schedule, and the never-read `folderMap` field is
omitted. -/
structure RunState where
  currentIndex : Nat
  deduplicationMap : List ContentKey
  fileList : List FileInfo
  folderList : List FolderInfo
  copiedFolders : List FilePath2
  folderReport : List ReportEntry
  stats : RunStats
deriving Repr

/-- Model of the `start-process` destination content index (main.js:361-384):
recursively hash every file under the destination root (no extension
filter), with a pause check per entry, collecting the ContentKey set. -/
def destIndexKeysStart (fs : ModelFS) (dest : FilePath2) (sched : Nat → Bool)
    (t : Nat) : List ContentKey × Nat :=
  go (fsFilesUnder fs dest) t
where
  go : ModelFS → Nat → List ContentKey × Nat
    | [], t => ([], t)
    | e :: rest, t =>
      if sched t then ([], t + 1)
      else
        match hashFileM (some e.snd) sched (t + 1) with
        | (Except.error _, t2) => go rest t2
        | (Except.ok h, t2) =>
          let r := go rest t2
          (⟨e.snd.length, h⟩ :: r.fst, r.snd)

/-- Model of the `resume-process` destination content index (main.js:788-801): a
recursive `readdir` whose dirents carry base names only, re-joined
against the destination root — so a nested file contributes a key only
when a file with the same base name exists directly at the root.  No
pause check guards this loop. -/
def destIndexKeysResume (fs : ModelFS) (dest : FilePath2) (sched : Nat → Bool)
    (t : Nat) : List ContentKey × Nat :=
  go (fsFilesUnder fs dest) t
where
  go : ModelFS → Nat → List ContentKey × Nat
    | [], t => ([], t)
    | e :: rest, t =>
      match fsLookup fs (dest ++ [e.fst.getLastD ""]) with
      | none => go rest t
      | some c =>
        match hashFileM (some c) sched t with
        | (Except.error _, t2) => go rest t2
        | (Except.ok h, t2) =>
          let r := go rest t2
          (⟨c.length, h⟩ :: r.fst, r.snd)

/-- Destination-root-level folder signatures (main.js:386-402 and
803-816, identical): for each immediate subdirectory of the destination
root, in `readdir` order with a pause check per entry, the signature of
its direct files. -/
def destSignaturesOf (fs : ModelFS) (dest : FilePath2) (allowed : List String)
    (sched : Nat → Bool) (t : Nat) : List (List FileSig) × Nat :=
  go (fsChildNames fs dest) t
where
  go : List String → Nat → List (List FileSig) × Nat
    | [], t => ([], t)
    | n :: ns, t =>
      if sched t then ([], t + 1)
      else
        let t := t + 1
        if fsIsDir fs (dest ++ [n]) then
          let r1 := scanDestinationDirect fs (dest ++ [n]) allowed sched t
          let r2 := go ns r1.snd
          (buildDestinationFolderSignature r1.fst :: r2.fst, r2.snd)
        else go ns t

/-!
### Folder merge engine (main.js:406-508)
-/

/-- A leaf folder together with its signature, as pushed into
`folderGroupsByName` (main.js:423-426). -/
structure Member where
  signature : FolderSignature
  folderInfo : FolderInfo
deriving Repr

/-- Append a member to its normalized-name group, preserving the
insertion order of a JavaScript `Map` (main.js:419-426). -/
def groupInsert (groups : List (String × List Member)) (name : String)
    (m : Member) : List (String × List Member) :=
  match groups with
  | [] => [(name, [m])]
  | g :: gs =>
    if g.fst = name then (g.fst, g.snd ++ [m]) :: gs
    else g :: groupInsert gs name m

/-- The grouping loop (main.js:409-430): for each leaf folder, one pause
check, its signature (whose hashing observes the pause flag), a second
pause check after the signature, then insertion into the group of its
normalized base name. -/
def buildGroups (fs : ModelFS) (leafFolders : List FolderInfo)
    (sched : Nat → Bool) (t : Nat) (groups : List (String × List Member)) :
    List (String × List Member) × Nat :=
  match leafFolders with
  | [] => (groups, t)
  | folder :: rest =>
    if sched t then (groups, t + 1)
    else
      let r := buildFolderSignature fs folder sched (t + 1)
      if sched r.snd then (groups, r.snd + 1)
      else
        let name := normalizeFolderName (folder.path.getLastD "")
        buildGroups fs rest sched (r.snd + 1)
          (groupInsert groups name ⟨r.fst, folder⟩)

/-- The local ContentKey map built for a pre-existing destination group
folder (main.js:444-460) and for a merge target (main.js:739-755): a
recursive `readdir` whose dirents carry base names only, re-joined
against the group folder — so only direct files of the folder (or nested
files shadowed by a same-named direct file) contribute keys. -/
def buildLocalKeyMap (fs : ModelFS) (dirPath : FilePath2) (sched : Nat → Bool)
    (t : Nat) : List ContentKey × Nat :=
  go (fsFilesUnder fs dirPath) t
where
  go : ModelFS → Nat → List ContentKey × Nat
    | [], t => ([], t)
    | e :: rest, t =>
      match fsLookup fs (dirPath ++ [e.fst.getLastD ""]) with
      | none => go rest t
      | some c =>
        match hashFileM (some c) sched t with
        | (Except.error _, t2) => go rest t2
        | (Except.ok h, t2) =>
          let r := go rest t2
          (⟨c.length, h⟩ :: r.fst, r.snd)

/-- Result of processing group members: filesystem, local key map,
absorbed folders, report, counters, copies, tick. -/
structure MemberLoopResult where
  fs : ModelFS
  map : List ContentKey
  copiedFolders : List FilePath2
  folderReport : List ReportEntry
  stats : RunStats
  ops : List CopyOp
  t : Nat
deriving Repr

/-- Processing of one group member (main.js:476-506), after the
member-loop pause check: a member whose signature digest appears among
the destination-root-level signatures is absorbed as a duplicate with no
filesystem operation; otherwise its subtree is merged content-aware into
the group folder and it is absorbed as copied. -/
def processMember (fuel : Nat) (destSignatures : List (List FileSig))
    (destFolderPath : FilePath2) (m : Member) (fs : ModelFS)
    (map : List ContentKey) (copiedFolders : List FilePath2)
    (folderReport : List ReportEntry) (stats : RunStats)
    (sched : Nat → Bool) (t : Nat) : MemberLoopResult :=
  let sourcePath := m.folderInfo.path
  if destSignatures.contains m.signature.hash then
    { fs := fs
      map := map
      copiedFolders := copiedFolders ++ [sourcePath]
      folderReport := folderReport ++
        [⟨sourcePath, destFolderPath, "Duplicate (Exists in Destination)"⟩]
      stats := { stats with duplicates := stats.duplicates + m.signature.fileCount }
      ops := []
      t := t }
  else
    let r := mergeFolderRecursive fuel fs sourcePath destFolderPath map sched t
    { fs := r.fs
      map := r.map
      copiedFolders := copiedFolders ++ [sourcePath]
      folderReport := folderReport ++ [⟨sourcePath, destFolderPath, "Copied"⟩]
      stats := { stats with
        copied := stats.copied + m.signature.fileCount
        sizeCopied := stats.sizeCopied + m.signature.totalSize }
      ops := r.ops
      t := r.t }

/-- The member loop of one group (main.js:473-507): a pause check per
member, then `processMember`. -/
def processGroupMembers (fuel : Nat) (destSignatures : List (List FileSig))
    (destFolderPath : FilePath2) (members : List Member) (fs : ModelFS)
    (map : List ContentKey) (copiedFolders : List FilePath2)
    (folderReport : List ReportEntry) (stats : RunStats)
    (sched : Nat → Bool) (t : Nat) : MemberLoopResult :=
  match members with
  | [] => ⟨fs, map, copiedFolders, folderReport, stats, [], t⟩
  | m :: rest =>
    if sched t then ⟨fs, map, copiedFolders, folderReport, stats, [], t + 1⟩
    else
      let r := processMember fuel destSignatures destFolderPath m fs map
        copiedFolders folderReport stats sched (t + 1)
      let r2 := processGroupMembers fuel destSignatures destFolderPath rest r.fs
        r.map r.copiedFolders r.folderReport r.stats sched r.t
      { r2 with ops := r.ops ++ r2.ops }

/-- The group loop (main.js:432-508): a pause check per group, the local
key map when the group's destination folder pre-exists (`mkdir` is a
filesystem no-op otherwise), then the member loop. -/
def processGroups (fuel : Nat) (destSignatures : List (List FileSig))
    (dest : FilePath2) (groups : List (String × List Member)) (fs : ModelFS)
    (copiedFolders : List FilePath2) (folderReport : List ReportEntry)
    (stats : RunStats) (sched : Nat → Bool) (t : Nat) : MemberLoopResult :=
  match groups with
  | [] => ⟨fs, [], copiedFolders, folderReport, stats, [], t⟩
  | (name, members) :: rest =>
    if sched t then ⟨fs, [], copiedFolders, folderReport, stats, [], t + 1⟩
    else
      let t := t + 1
      let destFolderPath := dest ++ [name]
      let km :=
        if fsIsDir fs destFolderPath then buildLocalKeyMap fs destFolderPath sched t
        else ([], t)
      let r := processGroupMembers fuel destSignatures destFolderPath members fs
        km.fst copiedFolders folderReport stats sched km.snd
      let r2 := processGroups fuel destSignatures dest rest r.fs r.copiedFolders
        r.folderReport r.stats sched r.t
      { r2 with ops := r.ops ++ r2.ops }

/-- The absorbed-file set (main.js:510-517 and 820-827): the paths of
files whose owning folder is an absorbed folder, by exact match or
path-prefix containment. -/
def processedFilesOf (copiedFolders : List FilePath2)
    (fileList : List FileInfo) : List FilePath2 :=
  (fileList.filter (fun f => copiedFolders.any
    (fun fp => f.folderPath = fp || (childNameOf fp f.path).isSome))).map
    (fun f => f.path)

/-!
### File dedup engine (main.js:519-604 and 829-914)
-/

/-- Digits of a natural number, as characters; `fuel` bounds the digit
count. -/
def natToStrAux (fuel : Nat) (n : Nat) : List Char :=
  match fuel with
  | 0 => []
  | fuel + 1 =>
    if n < 10 then [Char.ofNat (48 + n)]
    else natToStrAux fuel (n / 10) ++ [Char.ofNat (48 + n % 10)]

/-- Decimal rendering of a natural number (the template literal
`` `${counter}` ``). -/
def natToStr (n : Nat) : String := String.mk (natToStrAux (n + 1) n)

/-- Model of `path.extname(name)` / `path.basename(name, ext)`: the base
name and the extension including its dot (empty when the name has no
dot). -/
def splitExtName (name : String) : String × String :=
  match splitChar '.' name with
  | [] => (name, "")
  | [_] => (name, "")
  | ps => (joinSep'dot (ps.dropLast), "." ++ ps.getLastD "")
where
  joinSep'dot : List String → String
    | [] => ""
    | x :: xs => xs.foldl (fun acc s => acc ++ "." ++ s) x

/-- The conflict-rename loop (main.js:578-591 and 888-901): while a file
exists at the candidate path, append `_counter` to the base name and
retry with the next counter.  `fuel` bounds the iterations; the loop of
the code terminates because the filesystem is finite and the candidate
names are pairwise distinct. -/
def findUnique (fs : ModelFS) (dir : FilePath2) (fileName : String) :
    Nat → FilePath2 → Nat → FilePath2
  | 0, uniquePath, _ => uniquePath
  | fuel + 1, uniquePath, counter =>
    if fsIsFile fs uniquePath then
      let pr := splitExtName fileName
      findUnique fs dir fileName fuel
        (dir ++ [pr.fst ++ "_" ++ natToStr counter ++ pr.snd]) (counter + 1)
    else uniquePath

/-- Model of `path.join(destinationFolder, ...normalizedParts)` at the
segment level: empty segments are dropped, as Node's `path.join` does. -/
def joinSegs (base : FilePath2) (parts : List String) : FilePath2 :=
  base ++ parts.filter (fun s => s ≠ "")

/-- The destination folder of one file record (main.js:554-562 in the
start pass, 864-872 in the resume pass): the folder-relative path split
into segments — filtered for emptiness only when `filterEmptySegs` is
true, which the start pass does and the resume pass does not — each
segment normalized, joined below the destination root.  The empty
relative path plays the role of `''`/`'.'`. -/
def fileDestFolder (filterEmptySegs : Bool) (dest : FilePath2)
    (f : FileInfo) : FilePath2 :=
  if f.folderRelativePath ≠ [] then
    let folderParts :=
      if filterEmptySegs then f.folderRelativePath.filter (fun p => p ≠ "")
      else f.folderRelativePath
    joinSegs dest (folderParts.map normalizeFolderName)
  else dest

/-- Outcome of the body of one file iteration: either fall through to
the next index, or break out of the loop saving the cursor (the
post-hash pause check, main.js:540-543 / 850-853). -/
inductive StepOutcome
  | continueNext
  | stopPaused
deriving DecidableEq, Repr

/-- State produced by one file iteration. -/
structure StepResult where
  fs : ModelFS
  dedupMap : List ContentKey
  stats : RunStats
  ops : List CopyOp
  outcome : StepOutcome
  t : Nat
deriving Repr

/-- The `try` body of one file-dedup iteration (main.js:538-603 /
848-913): hash the file (a rejected hash is caught and falls through to
the next index), a pause check after the hash, the dedup-set and
destination-index check, registration of the key, the destination path
computation, the same-name existence check counting a duplicate, the
conflict-rename loop, and the copy. -/
def fileStep (filterEmptySegs : Bool) (fs : ModelFS) (dest : FilePath2)
    (destMap : List ContentKey) (dedupMap : List ContentKey) (stats : RunStats)
    (f : FileInfo) (sched : Nat → Bool) (t : Nat) : StepResult :=
  match hashFileM (fsLookup fs f.path) sched t with
  | (Except.error _, t2) => ⟨fs, dedupMap, stats, [], StepOutcome.continueNext, t2⟩
  | (Except.ok h, t2) =>
    if sched t2 then ⟨fs, dedupMap, stats, [], StepOutcome.stopPaused, t2 + 1⟩
    else
      let t3 := t2 + 1
      let key : ContentKey := ⟨f.size, h⟩
      if dedupMap.contains key || destMap.contains key then
        ⟨fs, dedupMap, { stats with duplicates := stats.duplicates + 1 }, [],
          StepOutcome.continueNext, t3⟩
      else
        let dedupMap := key :: dedupMap
        let destFolderPath := fileDestFolder filterEmptySegs dest f
        let destPath := destFolderPath ++ [f.name]
        if fsIsFile fs destPath then
          ⟨fs, dedupMap, { stats with duplicates := stats.duplicates + 1 }, [],
            StepOutcome.continueNext, t3⟩
        else
          let uniquePath := findUnique fs destFolderPath f.name (fs.length + 1) destPath 1
          let c := (fsLookup fs f.path).getD ""
          ⟨fsSetFile fs uniquePath c, dedupMap,
            { stats with
              copied := stats.copied + 1
              sizeCopied := stats.sizeCopied + f.size },
            [⟨f.path, uniquePath, key⟩], StepOutcome.continueNext, t3⟩

/-- Result of the file-dedup loop. -/
structure FileLoopResult where
  fs : ModelFS
  dedupMap : List ContentKey
  stats : RunStats
  currentIndex : Nat
  pausedStop : Bool
  ops : List CopyOp
  t : Nat
deriving Repr

/-- The file-dedup loop (main.js:519-604 from index 0, 829-914 from the
saved cursor): per index, a pause check saving the cursor at this index,
the absorbed-folder skip, the scanned counter, then `fileStep`; a
`stopPaused` outcome saves the cursor at this index.  `rest` is
`fileList.drop i` and `currentIndex` the cursor value carried in from
the state. -/
def filePassGo (filterEmptySegs : Bool) (dest : FilePath2)
    (destMap : List ContentKey) (processed : List FilePath2) :
    List FileInfo → Nat → ModelFS → List ContentKey → RunStats → Nat →
    (Nat → Bool) → Nat → FileLoopResult
  | [], _, fs, dedupMap, stats, currentIndex, _, t =>
    ⟨fs, dedupMap, stats, currentIndex, false, [], t⟩
  | f :: rest, i, fs, dedupMap, stats, currentIndex, sched, t =>
    if sched t then ⟨fs, dedupMap, stats, i, true, [], t + 1⟩
    else
      let t := t + 1
      if processed.contains f.path then
        filePassGo filterEmptySegs dest destMap processed rest (i + 1) fs dedupMap
          stats currentIndex sched t
      else
        let stats := { stats with scanned := stats.scanned + 1 }
        let r := fileStep filterEmptySegs fs dest destMap dedupMap stats f sched t
        match r.outcome with
        | StepOutcome.stopPaused =>
          ⟨r.fs, r.dedupMap, r.stats, i, true, r.ops, r.t⟩
        | StepOutcome.continueNext =>
          let r2 := filePassGo filterEmptySegs dest destMap processed rest (i + 1)
            r.fs r.dedupMap r.stats currentIndex sched r.t
          { r2 with ops := r.ops ++ r2.ops }

/-!
### Run drivers (main.js:328-619, 721-777, 779-922)
-/

/-- Lowercase a string (`ext.toLowerCase()`). -/
def toLowerStr (s : String) : String := String.mk (s.data.map Char.toLower)

/-- Result of a `start-process` or `resume-process` run: the filesystem,
the run state, every `fs.copyFile` performed (folder merge and file pass
alike), whether the terminal `process-complete` event fired, and the
tick. -/
structure RunResult where
  fs : ModelFS
  state : RunState
  ops : List CopyOp
  completed : Bool
  t : Nat
deriving Repr

/-- The source scan loop of `start-process` (main.js:347-350): one pause
check per source root, then a scan rooted at it. -/
def scanSources (fuel : Nat) (fs : ModelFS) (sourceFolders : List FilePath2)
    (allowed : List String) (sched : Nat → Bool) (acc : ScanAcc) : ScanAcc :=
  match sourceFolders with
  | [] => acc
  | root :: rest =>
    if sched acc.t then { acc with t := acc.t + 1 }
    else
      let acc := scanDirectory fuel fs root allowed [] root sched { acc with t := acc.t + 1 }
      scanSources fuel fs rest allowed sched acc

/-- Model of the `start-process` handler (main.js:328-619): reset the
state, scan the sources, index the destination (content keys and
root-level folder signatures), group the source leaf folders by
normalized name, run the folder merge engine, compute the absorbed-file
set, and run the file dedup loop from index 0.  The final read of the
pause flag decides whether `process-complete` fires. -/
def startRun (fuel : Nat) (fs : ModelFS) (sourceFolders : List FilePath2)
    (dest : FilePath2) (extensions : List String) (sched : Nat → Bool)
    (t : Nat) : RunResult :=
  let allowed := extensions.map toLowerStr
  let scanned := scanSources fuel fs sourceFolders allowed sched ⟨[], [], t⟩
  let destKeys := destIndexKeysStart fs dest sched scanned.t
  let destSigs := destSignaturesOf fs dest allowed sched destKeys.snd
  let leafFolders := scanned.folderList.filter (fun f => f.isLeaf)
  let groups := buildGroups fs leafFolders sched destSigs.snd []
  let stats0 : RunStats := ⟨0, 0, 0, 0⟩
  let m := processGroups fuel destSigs.fst dest groups.fst fs [] [] stats0 sched groups.snd
  let processed := processedFilesOf m.copiedFolders scanned.fileList
  let fp := filePassGo true dest destKeys.fst processed scanned.fileList 0 m.fs []
    m.stats 0 sched m.t
  { fs := fp.fs
    state :=
      { currentIndex := fp.currentIndex
        deduplicationMap := fp.dedupMap
        fileList := scanned.fileList
        folderList := scanned.folderList
        copiedFolders := m.copiedFolders
        folderReport := m.folderReport
        stats := fp.stats }
    ops := m.ops ++ fp.ops
    completed := !(sched fp.t)
    t := fp.t + 1 }

/-- Model of the `resume-process` handler (main.js:779-922): re-index
the destination (the resume-side content index joins recursive dirent
base names against the destination root), rebuild the root-level folder
signatures, recompute the absorbed-file set from the saved state, and
continue the file dedup loop from the saved cursor.  The handler
contains no folder-merge pass. -/
def resumeRun (st : RunState) (fs : ModelFS) (dest : FilePath2)
    (extensions : List String) (sched : Nat → Bool) (t : Nat) : RunResult :=
  let allowed := extensions.map toLowerStr
  let destKeys := destIndexKeysResume fs dest sched t
  let destSigs := destSignaturesOf fs dest allowed sched destKeys.snd
  let processed := processedFilesOf st.copiedFolders st.fileList
  let fp := filePassGo false dest destKeys.fst processed
    (st.fileList.drop st.currentIndex) st.currentIndex fs st.deduplicationMap
    st.stats st.currentIndex sched destSigs.snd
  { fs := fp.fs
    state := { st with
      currentIndex := fp.currentIndex
      deduplicationMap := fp.dedupMap
      stats := fp.stats }
    ops := fp.ops
    completed := !(sched fp.t)
    t := fp.t + 1 }

/-- One group of the `confirm-merge` handler: the normalized name and
the member folder paths, the first of which is the merge target. -/
structure MergeGroupReq where
  name : String
  folders : List FilePath2
deriving Repr

/-- The member loop of `confirm-merge` (main.js:757-767): a pause check
per member, the target itself skipped; each other member is merged
content-aware into the target and then its directory tree is removed —
unconditionally, whether or not the merge walked the whole subtree. -/
def confirmMergeMembers (fuel : Nat) (fs : ModelFS) (folders : List FilePath2)
    (target : FilePath2) (map : List ContentKey) (sched : Nat → Bool)
    (t : Nat) : ModelFS × List ContentKey × Nat × List CopyOp :=
  match folders with
  | [] => (fs, map, t, [])
  | folder :: rest =>
    if sched t then (fs, map, t + 1, [])
    else
      let t := t + 1
      if folder = target then confirmMergeMembers fuel fs rest target map sched t
      else
        let r := mergeFolderRecursive fuel fs folder target map sched t
        let fs2 := fsRemoveTree r.fs folder
        let r2 := confirmMergeMembers fuel fs2 rest target r.map sched r.t
        (r2.fst, r2.snd.fst, r2.snd.snd.fst, r.ops ++ r2.snd.snd.snd)

/-- Model of the `confirm-merge` handler (main.js:721-777): per chosen
group, a pause check, the target's local ContentKey map, then the member
loop. -/
def confirmMergeRun (fuel : Nat) (fs : ModelFS) (groups : List MergeGroupReq)
    (sched : Nat → Bool) (t : Nat) : ModelFS × Nat × List CopyOp :=
  match groups with
  | [] => (fs, t, [])
  | g :: rest =>
    if sched t then (fs, t + 1, [])
    else
      let t := t + 1
      let target := g.folders.headD []
      let km := buildLocalKeyMap fs target sched t
      let r := confirmMergeMembers fuel fs g.folders target km.fst sched km.snd
      let r2 := confirmMergeRun fuel r.fst rest sched r.snd.snd.fst
      (r2.fst, r2.snd.fst, r.snd.snd.snd ++ r2.snd.snd)

/-!
### Spec-modelled resume with folder-merge replay

The specification describes resuming as re-entering at destination
indexing and then always replaying the folder-merge pass in full before
continuing the per-file pass from the saved cursor.  The `resume-process`
handler contains no folder-merge pass, so the described behaviour is
modelled here from the specification for comparison with `resumeRun`.
-/

/-- Modelled from the spec: the resume behaviour the specification
describes ("Resuming re-enters at `IndexingDestination` and always
replays `FolderMerge` in full ... then continues `FileDedup` from the
saved cursor"), which is missing from the `resume-process` handler:
after destination indexing, the saved folder list's leaf folders are
re-grouped, re-checked against the destination-root-level signatures and
re-merged exactly as the start-process folder-merge pass does, and only
then does the file pass continue from the saved cursor. -/
def resumeWithMergeReplay (fuel : Nat) (st : RunState) (fs : ModelFS)
    (dest : FilePath2) (extensions : List String) (sched : Nat → Bool)
    (t : Nat) : RunResult :=
  let allowed := extensions.map toLowerStr
  let destKeys := destIndexKeysResume fs dest sched t
  let destSigs := destSignaturesOf fs dest allowed sched destKeys.snd
  let leafFolders := st.folderList.filter (fun f => f.isLeaf)
  let groups := buildGroups fs leafFolders sched destSigs.snd []
  let m := processGroups fuel destSigs.fst dest groups.fst fs st.copiedFolders
    st.folderReport st.stats sched groups.snd
  let processed := processedFilesOf m.copiedFolders st.fileList
  let fp := filePassGo false dest destKeys.fst processed
    (st.fileList.drop st.currentIndex) st.currentIndex m.fs st.deduplicationMap
    m.stats st.currentIndex sched m.t
  { fs := fp.fs
    state := { st with
      currentIndex := fp.currentIndex
      deduplicationMap := fp.dedupMap
      copiedFolders := m.copiedFolders
      folderReport := m.folderReport
      stats := fp.stats }
    ops := m.ops ++ fp.ops
    completed := !(sched fp.t)
    t := fp.t + 1 }

/-!
### Concrete scenarios

Small filesystems and schedules on which the claims are evaluated.
-/

/-- The always-down pause flag: a run during which pause is never
pressed. -/
def noPause : Nat → Bool := fun _ => false

/-- A pause flag raised at the k-th check and held: the user presses
pause once while the run is between its (k-1)-th and k-th check, and
does not resume. -/
def pauseAt (k : Nat) : Nat → Bool := fun t => k ≤ t

/-- Scenario for the double-run idempotence claim: the destination
already holds `Trip/a` with content `X`; the source leaf folder `Trip`
holds `a` with different content `Y` and `b` with content `X`. -/
def fsTwice : ModelFS :=
  [ (["D", "Trip", "a"], "X"),
    (["S", "Trip", "a"], "Y"),
    (["S", "Trip", "b"], "X") ]

/-- The first full run on `fsTwice`. -/
def runOnce : RunResult := startRun 10 fsTwice [["S"]] ["D"] [] noPause 0

/-- The second full run, on the filesystem the first run produced. -/
def runTwice : RunResult := startRun 10 runOnce.fs [["S"]] ["D"] [] noPause 0

/-- Scenario for the cursor claim: two source files, no absorbed
folders, empty indices. -/
def fsCursor : ModelFS := [ (["S", "a"], "A"), (["S", "b"], "B") ]

/-- File record of `S/a` as the scanner would produce it. -/
def fileA : FileInfo := ⟨["S", "a"], 1, "a", ["a"], ["S"], []⟩

/-- File record of `S/b` as the scanner would produce it. -/
def fileB : FileInfo := ⟨["S", "b"], 1, "b", ["b"], ["S"], []⟩

/-- The file pass of the cursor scenario: pause is raised at check 1,
which is the `end` event of the hash of the file at index 0 (check 0 is
the loop-top check of index 0). -/
def cursorPass : FileLoopResult :=
  filePassGo true ["D"] [] [] [fileA, fileB] 0 fsCursor [] ⟨0, 0, 0, 0⟩ 0 (pauseAt 1) 0

/-- Scenario for the confirm-merge deletion claim: the destination holds
`Photos/a` (content `A`) and `Photos_bak` with two files of unique
content, `u1` (content `B`) and `u2` (content `C`). -/
def fsConfirm : ModelFS :=
  [ (["D", "Photos", "a"], "A"),
    (["D", "Photos_bak", "u1"], "B"),
    (["D", "Photos_bak", "u2"], "C") ]

/-- The confirmed merge group of the deletion scenario: `Photos` is the
target, `Photos_bak` the member to merge and delete. -/
def confirmGroups : List MergeGroupReq :=
  [⟨"Photos", [["D", "Photos"], ["D", "Photos_bak"]]⟩]

/-- The confirm-merge run of the deletion scenario: pause is raised at
check 6, which is the entry-loop check of `u2` inside the recursive
merge of `Photos_bak`, after `u1` was copied. -/
def confirmRun : ModelFS × Nat × List CopyOp :=
  confirmMergeRun 10 fsConfirm confirmGroups (pauseAt 6) 0

/-- Scenario for the resume claim: the destination holds leaf folder `L`
whose signature matches source leaf folder `L`; the source also holds a
root-level file `y`. -/
def fsResume : ModelFS :=
  [ (["D", "L", "x"], "X"),
    (["S", "L", "x"], "X"),
    (["S", "y"], "Y") ]

/-- A start run on `fsResume` paused during the file-dedup phase: check
17 is the loop-top check of file index 1, after folder `L` was absorbed
as a duplicate and file index 0 was skipped as absorbed. -/
def pausedStart : RunResult := startRun 10 fsResume [["S"]] ["D"] [] (pauseAt 17) 0

/-- Resuming the paused run with the pause flag down, as the
`resume-process` handler does. -/
def resumedRun : RunResult := resumeRun pausedStart.state fsResume ["D"] [] noPause 0

/-- Resuming the paused run as the specification describes, with the
folder-merge pass replayed in full. -/
def resumedRunReplay : RunResult :=
  resumeWithMergeReplay 10 pausedStart.state fsResume ["D"] [] noPause 0

/-- A pause flag raised at check 1 and lowered again afterwards: the
user presses pause while a hash stream is in flight and presses resume
before its `end` event fires. -/
def pauseBlip : Nat → Bool := fun t => t == 1

/-- Witness filesystem for the recursive-merge claim: source `S` with
files `a`, `b`, target `T` with one unrelated file. -/
def fsMergeW : ModelFS :=
  [ (["S", "a"], "A"), (["S", "b"], "B"), (["T", "z"], "Z") ]

/-- Witness merge: `B` is already in the supplied map, so only `a` is
copied. -/
def mergeW : MergeResult :=
  mergeFolderRecursive 5 fsMergeW ["S"] ["T"] [⟨1, "B"⟩] noPause 0

/-- Witness filesystem for the signature claim: folders `A` and `B`
hold files of the same contents, enumerated in opposite orders. -/
def fsSigW : ModelFS :=
  [ (["A", "x"], "X"), (["B", "y"], "Y"), (["A", "y"], "Y"), (["B", "x"], "X") ]

/-- Folder record of `A` in the signature witness, as scanned. -/
def folderWA : FolderInfo :=
  ⟨["A"], ["A"],
    [⟨["A", "x"], 1, "x", ["x"], ["A"], []⟩, ⟨["A", "y"], 1, "y", ["y"], ["A"], []⟩],
    [], true⟩

/-- Folder record of `B` in the signature witness, enumerated in the
opposite order. -/
def folderWB : FolderInfo :=
  ⟨["B"], ["B"],
    [⟨["B", "y"], 1, "y", ["y"], ["B"], []⟩, ⟨["B", "x"], 1, "x", ["x"], ["B"], []⟩],
    [], true⟩

/-- Witness filesystem for the name-collision claim: the destination
root already holds a file named `a` of different content. -/
def fsNameW : ModelFS := [ (["S", "a"], "A"), (["D", "a"], "Q") ]

/-!
## Theorems
-/

/-- Normalizing the empty segment yields the empty segment. -/
theorem normalizeFolderName_empty : normalizeFolderName "" = "" := rfl

/-- Dropping empty segments before normalizing changes nothing once the
join drops empty segments again: the only segments the pre-filter
removes are empty, and they normalize to the empty segment, which the
post-filter removes anyway. -/
theorem filter_map_normalize (l : List String) :
    ((l.filter (fun p => p ≠ "")).map normalizeFolderName).filter (fun s => s ≠ "") =
    (l.map normalizeFolderName).filter (fun s => s ≠ "") := by
  induction l with
  | nil => rfl
  | cons x xs ih =>
    by_cases hx : x = ""
    · subst hx
      simpa [normalizeFolderName_empty] using ih
    · by_cases hn : normalizeFolderName x = "" <;> simpa [hx, hn] using ih

/-- C10: the destination folder path computed by the start-process file
pass (which filters out empty path segments before joining) equals the
one computed by the resume-process file pass (which does not), for every
destination root and every folder-relative path — including paths with
segments that normalize to the empty string, such as names beginning
with an underscore — because `path.join` drops empty segments either
way. -/
theorem destFolderPath_start_eq_resume (dest rel : String) :
    destFolderPathStart dest rel = destFolderPathResume dest rel := by
  unfold destFolderPathStart destFolderPathResume
  by_cases h : rel ≠ "" ∧ rel ≠ "."
  · rw [if_pos h, if_pos h]
    unfold pathJoin
    simp only [List.filter_cons]
    rw [filter_map_normalize]
  · rw [if_neg h, if_neg h]

/-- Folding the chunks from index `i` with the pause flag down at every
index in range accumulates every chunk. -/
theorem hashFoldAux_all_down (sched : Nat → Bool) :
    ∀ (l : List Content) (i : Nat) (acc : String),
    (∀ k, i ≤ k → k < i + l.length → sched k = false) →
    hashFoldAux sched l i acc = l.foldl (fun a c => a ++ c) acc := by
  intro l
  induction l with
  | nil => intro i acc _; rfl
  | cons c cs ih =>
    intro i acc hall
    have hi : sched i = false := hall i le_rfl (by simp only [List.length_cons]; omega)
    unfold hashFoldAux
    rw [hi]
    simp only [Bool.false_eq_true, if_false]
    rw [List.foldl_cons]
    refine ih (i + 1) (acc ++ c) (fun k h1 h2 => hall k (by omega) ?_)
    simp only [List.length_cons]
    omega

/-- C2 (amended): under a monotone pause schedule — the flag, once
raised, stays raised — `hashFile` rejects with `Paused` (yields no
digest) whenever the flag is raised at any check before the stream
completes, and whenever it resolves, the digest covers every chunk of
the file, so no digest over a proper subset of the bytes ever escapes. -/
theorem hashFileChunks_cancelled_or_full (chunks : List Content) (sched : Nat → Bool)
    (hm : MonotoneSched sched) :
    ((∃ k, k ≤ chunks.length ∧ sched k = true) → hashFileChunks chunks sched = none) ∧
    (∀ d, hashFileChunks chunks sched = some d → d = fullDigest chunks) := by
  constructor
  · rintro ⟨k, hk, hs⟩
    have hend : sched chunks.length = true := hm k chunks.length hk hs
    unfold hashFileChunks
    rw [hend]
    simp
  · intro d hd
    unfold hashFileChunks at hd
    by_cases hend : sched chunks.length = true
    · rw [hend] at hd
      simp at hd
    · have hEnd : sched chunks.length = false := by
        cases h : sched chunks.length with
        | false => rfl
        | true => exact absurd h hend
      rw [hEnd] at hd
      simp only [Bool.false_eq_true, if_false, Option.some.injEq] at hd
      have hall : ∀ k, 0 ≤ k → k < 0 + chunks.length → sched k = false := by
        intro k _ hk
        cases h : sched k with
        | false => rfl
        | true =>
          have h2 : sched chunks.length = true := hm k chunks.length (by omega) h
          rw [h2] at hEnd
          exact absurd hEnd (by simp)
      rw [← hd]
      unfold fullDigest hashContent
      exact hashFoldAux_all_down sched chunks 0 "" hall

/-- C2 (counterexample): a pause raised during streaming (at the second
`data` event) and lowered again before the `end` event makes `hashFile`
resolve with a digest computed over only a subset of the file's bytes:
the claim that a raised pause always yields `Cancelled` and never a
partial digest is false on the code. -/
theorem hashFileChunks_partial_digest_cex :
    pauseBlip 1 = true ∧
    1 ≤ ([("ab" : Content), "cd"].length) ∧
    hashFileChunks ["ab", "cd"] pauseBlip = some "ab" ∧
    ("ab" : String) ≠ fullDigest ["ab", "cd"] := by
  refine ⟨rfl, by decide, rfl, by decide⟩

/-- C2 witness: the amended theorem applied to a concrete two-chunk file
under the held pause `pauseAt 1`, which is raised at the second `data`
event and stays raised through the `end` event: the hash is cancelled
and yields no digest. -/
theorem hashFileChunks_cancelled_witness :
    hashFileChunks ["ab", "cd"] (pauseAt 1) = none :=
  (hashFileChunks_cancelled_or_full ["ab", "cd"] (pauseAt 1)
    (by intro i j hij hi; simp only [pauseAt, decide_eq_true_eq] at hi ⊢; omega)).1
    ⟨1, by decide, by decide⟩

/-- C3: in the cursor scenario the pause flag is down at the loop-top
check of index 0 and raised from the `end` event of the hash of file 0
onward — the hash of file 0 is cancelled by the pause — yet the loop
saves cursor 1, not 0: the rejected hash is caught by the per-file
`catch`, the loop advances to index 1, and only its loop-top check
observes the pause, so the file at index 0 is skipped forever and is
never copied by the run or by any resume. -/
theorem filePass_cursor_skips_cancelled_file :
    (pauseAt 1) 0 = false ∧ (pauseAt 1) 1 = true ∧
    cursorPass.currentIndex = 1 ∧ cursorPass.pausedStop = true ∧
    cursorPass.stats.scanned = 1 ∧ cursorPass.ops = [] := by
  exact ⟨by decide, by decide, rfl, rfl, rfl, rfl⟩

/-- C5: both full runs on the double-run scenario complete normally, yet
the second run performs a file copy: the first run's folder merge
overwrites the pre-existing destination file `Trip/a` (content `X`) with
the source's different content `Y` while its local ContentKey map still
records `X` as present, so `Trip/b` (content `X`) is skipped by the
first run and is no longer anywhere under the destination, and the
second run's merge copies it — the second run performs one additional
copy, not zero. -/
theorem startRun_twice_copies_again :
    runOnce.completed = true ∧ runTwice.completed = true ∧
    runOnce.ops = [⟨["S", "Trip", "a"], ["D", "Trip", "a"], ⟨1, "Y"⟩⟩] ∧
    fsLookup fsTwice ["D", "Trip", "a"] = some "X" ∧
    fsLookup runOnce.fs ["D", "Trip", "a"] = some "Y" ∧
    runTwice.ops = [⟨["S", "Trip", "b"], ["D", "Trip", "b"], ⟨1, "X"⟩⟩] := by
  exact ⟨rfl, rfl, rfl, rfl, rfl, rfl⟩

/-- C8: in the deletion scenario, pause is observed inside the
content-aware merge of `Photos_bak` after `u1` was copied and before
`u2` was reached; the merge returns normally, `confirm-merge` proceeds
to remove the member directory anyway, and the unique content `C` of
`u2` — never copied anywhere — is destroyed: a pause during the merge
deletes a directory whose unique content has not been copied. -/
theorem confirmMerge_pause_loses_content :
    fsLookup fsConfirm ["D", "Photos_bak", "u2"] = some "C" ∧
    confirmRun.snd.snd = [⟨["D", "Photos_bak", "u1"], ["D", "Photos", "u1"], ⟨1, "B"⟩⟩] ∧
    fsIsDir confirmRun.fst ["D", "Photos_bak"] = false ∧
    confirmRun.fst.all (fun e => e.snd ≠ "C") = true := by
  exact ⟨rfl, rfl, rfl, by decide⟩

/-- C1 (counterexample): a start run on the resume scenario pauses
during the file-dedup phase (cursor saved at index 1, folder merge
finished with one report entry); the actual `resume-process` leaves the
folder report exactly as saved — it performs no re-grouping, no
signature re-check and no re-merge — while the resume the specification
describes, with the folder-merge pass replayed in full, appends a second
`Duplicate (Exists in Destination)` entry for the same leaf folder: the
claim that resuming replays the folder-merge pass in full is false on
the code. -/
theorem resume_no_merge_replay_cex :
    pausedStart.completed = false ∧
    pausedStart.state.currentIndex = 1 ∧
    pausedStart.state.folderReport.length = 1 ∧
    resumedRun.state.folderReport = pausedStart.state.folderReport ∧
    resumedRun.completed = true ∧
    resumedRunReplay.state.folderReport.length = 2 := by
  exact ⟨rfl, rfl, rfl, rfl, rfl, rfl⟩

/-- C6: a group member whose signature digest matches some existing
destination-root-level folder signature is absorbed without touching
the filesystem: the member's processing adds its source path to the
absorbed set, increments the duplicate counter by the signature's file
count, appends a report entry with status `Duplicate (Exists in
Destination)`, performs no copy, and leaves the filesystem and the
local ContentKey map exactly as they were. -/
theorem processMember_duplicate (fuel : Nat) (destSignatures : List (List FileSig))
    (destFolderPath : FilePath2) (m : Member) (fs : ModelFS)
    (map : List ContentKey) (cf : List FilePath2) (rl : List ReportEntry)
    (stats : RunStats) (sched : Nat → Bool) (t : Nat)
    (h : destSignatures.contains m.signature.hash = true) :
    processMember fuel destSignatures destFolderPath m fs map cf rl stats sched t =
      ⟨fs, map, cf ++ [m.folderInfo.path],
        rl ++ [⟨m.folderInfo.path, destFolderPath, "Duplicate (Exists in Destination)"⟩],
        { stats with duplicates := stats.duplicates + m.signature.fileCount }, [], t⟩ := by
  unfold processMember
  rw [h]
  simp

/-- C6 witness: the duplicate branch evaluated on a concrete member
whose one-file signature appears among the destination signatures. -/
theorem processMember_duplicate_witness :
    processMember 5 [[⟨"x", 1, "X"⟩]] ["D", "L"]
      ⟨⟨[⟨"x", 1, "X"⟩], 1, 1⟩, ⟨["S", "L"], ["L"], [], [], true⟩⟩ fsResume [] [] []
      ⟨0, 0, 0, 0⟩ noPause 0 =
    ⟨fsResume, [], [["S", "L"]],
      [⟨["S", "L"], ["D", "L"], "Duplicate (Exists in Destination)"⟩],
      ⟨0, 0, 1, 0⟩, [], 0⟩ :=
  processMember_duplicate 5 [[⟨"x", 1, "X"⟩]] ["D", "L"]
    ⟨⟨[⟨"x", 1, "X"⟩], 1, 1⟩, ⟨["S", "L"], ["L"], [], [], true⟩⟩ fsResume [] [] []
    ⟨0, 0, 0, 0⟩ noPause 0 (by decide)

/-- With no file at the candidate path, the conflict-rename loop exits
at once and returns the candidate unchanged. -/
theorem findUnique_absent (fs : ModelFS) (dir : FilePath2) (fileName : String)
    (fuel : Nat) (uniquePath : FilePath2) (counter : Nat)
    (h : fsIsFile fs uniquePath = false) :
    findUnique fs dir fileName (fuel + 1) uniquePath counter = uniquePath := by
  unfold findUnique
  rw [h]
  simp

/-- C4: in the per-file dedup pass, every copy the body of one file
iteration performs targets exactly the computed destination path
`destFolder ++ [name]` — the numeric-suffix rename branch never
produces a different target, because the rename loop is entered only
after the existence probe at that very path failed and the filesystem
does not change in between; and when a same-named file already occupies
the computed destination path, the iteration performs no copy at all
and leaves the filesystem unchanged, and on the name-collision branch
itself (hash delivered, pause down, content key fresh) it counts one
duplicate. -/
theorem fileStep_name_collision_precedence (filterE : Bool) (fs : ModelFS)
    (dest : FilePath2) (destMap dedupMap : List ContentKey) (stats : RunStats)
    (f : FileInfo) (sched : Nat → Bool) (t : Nat) :
    (∀ op ∈ (fileStep filterE fs dest destMap dedupMap stats f sched t).ops,
        op.dst = fileDestFolder filterE dest f ++ [f.name]) ∧
    (fsIsFile fs (fileDestFolder filterE dest f ++ [f.name]) = true →
        (fileStep filterE fs dest destMap dedupMap stats f sched t).ops = [] ∧
        (fileStep filterE fs dest destMap dedupMap stats f sched t).fs = fs ∧
        (fileStep filterE fs dest destMap dedupMap stats f sched t).stats.copied =
          stats.copied) ∧
    (∀ c, fsLookup fs f.path = some c → sched t = false → sched (t + 1) = false →
        dedupMap.contains ⟨f.size, hashContent c⟩ = false →
        destMap.contains ⟨f.size, hashContent c⟩ = false →
        fsIsFile fs (fileDestFolder filterE dest f ++ [f.name]) = true →
        (fileStep filterE fs dest destMap dedupMap stats f sched t).stats.duplicates =
          stats.duplicates + 1) := by
  refine ⟨?_, ?_, ?_⟩
  · intro op hop
    unfold fileStep at hop
    rcases hh : hashFileM (fsLookup fs f.path) sched t with ⟨res, t2⟩
    rw [hh] at hop
    cases res with
    | error e => simp at hop
    | ok h =>
      dsimp only at hop
      by_cases hp : sched t2 = true
      · rw [hp] at hop; simp at hop
      · rw [Bool.not_eq_true] at hp
        rw [hp] at hop
        simp only [Bool.false_eq_true, if_false] at hop
        by_cases hdup : (dedupMap.contains ⟨f.size, h⟩ || destMap.contains ⟨f.size, h⟩) = true
        · rw [hdup] at hop; simp at hop
        · rw [Bool.not_eq_true] at hdup
          rw [hdup] at hop
          simp only [Bool.false_eq_true, if_false] at hop
          by_cases hex : fsIsFile fs (fileDestFolder filterE dest f ++ [f.name]) = true
          · rw [hex] at hop; simp at hop
          · rw [Bool.not_eq_true] at hex
            rw [hex] at hop
            simp only [Bool.false_eq_true, if_false, List.mem_singleton] at hop
            subst hop
            exact findUnique_absent fs (fileDestFolder filterE dest f) f.name fs.length
              (fileDestFolder filterE dest f ++ [f.name]) 1 hex
  · intro hex
    unfold fileStep
    rcases hh : hashFileM (fsLookup fs f.path) sched t with ⟨res, t2⟩
    cases res with
    | error e => exact ⟨rfl, rfl, rfl⟩
    | ok h =>
      dsimp only
      by_cases hp : sched t2 = true
      · rw [hp]; simp
      · rw [Bool.not_eq_true] at hp
        rw [hp]
        simp only [Bool.false_eq_true, if_false]
        by_cases hdup : (dedupMap.contains ⟨f.size, h⟩ || destMap.contains ⟨f.size, h⟩) = true
        · rw [hdup]; simp
        · rw [Bool.not_eq_true] at hdup
          rw [hdup]
          simp only [Bool.false_eq_true, if_false]
          rw [hex]
          simp
  · intro c hc hs1 hs2 hd1 hd2 hex
    unfold fileStep
    rw [hc]
    unfold hashFileM
    rw [hs1]
    simp only [Bool.false_eq_true, if_false]
    rw [hs2]
    simp only [Bool.false_eq_true, if_false]
    unfold hashContent at hd1 hd2 ⊢
    rw [hd1, hd2]
    simp only [Bool.or_self, Bool.false_eq_true, if_false]
    rw [hex]
    simp

/-- C4 witness: the theorem applied to a concrete file whose computed
destination path is occupied by a same-named file of different content:
no copy, filesystem untouched, one duplicate counted. -/
theorem fileStep_name_collision_witness :
    (fileStep true fsNameW ["D"] [] [] ⟨0, 0, 0, 0⟩
      ⟨["S", "a"], 1, "a", ["a"], ["S"], []⟩ noPause 0).ops = [] ∧
    (fileStep true fsNameW ["D"] [] [] ⟨0, 0, 0, 0⟩
      ⟨["S", "a"], 1, "a", ["a"], ["S"], []⟩ noPause 0).fs = fsNameW ∧
    (fileStep true fsNameW ["D"] [] [] ⟨0, 0, 0, 0⟩
      ⟨["S", "a"], 1, "a", ["a"], ["S"], []⟩ noPause 0).stats.duplicates = 0 + 1 := by
  have h := fileStep_name_collision_precedence true fsNameW ["D"] [] [] ⟨0, 0, 0, 0⟩
    ⟨["S", "a"], 1, "a", ["a"], ["S"], []⟩ noPause 0
  exact ⟨(h.2.1 (by decide)).1, (h.2.1 (by decide)).2.1,
    h.2.2 "A" (by decide) (by decide) (by decide) (by decide) (by decide) (by decide)⟩

/-- One file iteration never changes the scanned counter: it is bumped
by the loop before the iteration body, not inside it. -/
theorem fileStep_scanned_const (filterE : Bool) (fs : ModelFS) (dest : FilePath2)
    (destMap dedupMap : List ContentKey) (stats : RunStats) (f : FileInfo)
    (sched : Nat → Bool) (t : Nat) :
    (fileStep filterE fs dest destMap dedupMap stats f sched t).stats.scanned =
      stats.scanned := by
  unfold fileStep
  rcases hh : hashFileM (fsLookup fs f.path) sched t with ⟨res, t2⟩
  cases res with
  | error e => rfl
  | ok h =>
    dsimp only
    by_cases hp : sched t2 = true
    · rw [hp]; rfl
    · rw [Bool.not_eq_true] at hp
      rw [hp]
      simp only [Bool.false_eq_true, if_false]
      by_cases hdup : (dedupMap.contains ⟨f.size, h⟩ || destMap.contains ⟨f.size, h⟩) = true
      · rw [hdup]; rfl
      · rw [Bool.not_eq_true] at hdup
        rw [hdup]
        simp only [Bool.false_eq_true, if_false]
        by_cases hex : fsIsFile fs (fileDestFolder filterE dest f ++ [f.name]) = true
        · rw [hex]; rfl
        · rw [Bool.not_eq_true] at hex
          rw [hex]
          simp only [Bool.false_eq_true, if_false]

/-- With the pause flag down throughout, one file iteration always falls
through to the next index: the `stopPaused` outcome needs a raised flag
at the post-hash check. -/
theorem fileStep_noPause_continue (filterE : Bool) (fs : ModelFS) (dest : FilePath2)
    (destMap dedupMap : List ContentKey) (stats : RunStats) (f : FileInfo) (t : Nat) :
    (fileStep filterE fs dest destMap dedupMap stats f noPause t).outcome =
      StepOutcome.continueNext := by
  unfold fileStep
  rcases hh : hashFileM (fsLookup fs f.path) noPause t with ⟨res, t2⟩
  cases res with
  | error e => rfl
  | ok h =>
    dsimp only
    rw [show noPause t2 = false from rfl]
    simp only [Bool.false_eq_true, if_false]
    by_cases hdup : (dedupMap.contains ⟨f.size, h⟩ || destMap.contains ⟨f.size, h⟩) = true
    · rw [hdup]; rfl
    · rw [Bool.not_eq_true] at hdup
      rw [hdup]
      simp only [Bool.false_eq_true, if_false]
      by_cases hex : fsIsFile fs (fileDestFolder filterE dest f ++ [f.name]) = true
      · rw [hex]; rfl
      · rw [Bool.not_eq_true] at hex
        rw [hex]
        simp only [Bool.false_eq_true, if_false]

/-- With the pause flag down throughout, the file loop never stops, the
cursor carried in is returned unchanged, and the scanned counter grows
by exactly the number of remaining files not in the absorbed set. -/
theorem filePassGo_noPause (filterE : Bool) (dest : FilePath2)
    (destMap : List ContentKey) (processed : List FilePath2) :
    ∀ (rest : List FileInfo) (i : Nat) (fs : ModelFS) (dm : List ContentKey)
      (stats : RunStats) (ci : Nat) (t : Nat),
    (filePassGo filterE dest destMap processed rest i fs dm stats ci noPause t).pausedStop
        = false ∧
    (filePassGo filterE dest destMap processed rest i fs dm stats ci noPause t).currentIndex
        = ci ∧
    (filePassGo filterE dest destMap processed rest i fs dm stats ci noPause t).stats.scanned
        = stats.scanned +
          (rest.filter (fun f => !(processed.contains f.path))).length := by
  intro rest
  induction rest with
  | nil => intro i fs dm stats ci t; exact ⟨rfl, rfl, by simp [filePassGo]⟩
  | cons f rest ih =>
    intro i fs dm stats ci t
    unfold filePassGo
    rw [show noPause t = false from rfl, if_neg Bool.false_ne_true]
    by_cases hp : processed.contains f.path = true
    · rw [hp, if_pos rfl]
      rcases ih (i + 1) fs dm stats ci (t + 1) with ⟨h1, h2, h3⟩
      refine ⟨h1, h2, ?_⟩
      rw [h3, List.filter_cons]
      rw [show (!processed.contains f.path) = false by rw [hp]; rfl]
      rw [if_neg Bool.false_ne_true]
    · rw [Bool.not_eq_true] at hp
      rw [hp, if_neg Bool.false_ne_true]
      dsimp only
      rw [fileStep_noPause_continue]
      dsimp only
      rcases ih (i + 1)
        (fileStep filterE fs dest destMap dm
          { stats with scanned := stats.scanned + 1 } f noPause (t + 1)).fs
        (fileStep filterE fs dest destMap dm
          { stats with scanned := stats.scanned + 1 } f noPause (t + 1)).dedupMap
        (fileStep filterE fs dest destMap dm
          { stats with scanned := stats.scanned + 1 } f noPause (t + 1)).stats
        ci
        (fileStep filterE fs dest destMap dm
          { stats with scanned := stats.scanned + 1 } f noPause (t + 1)).t
        with ⟨h1, h2, h3⟩
      refine ⟨h1, h2, ?_⟩
      rw [h3, fileStep_scanned_const, List.filter_cons]
      rw [show (!processed.contains f.path) = true by rw [hp]; rfl]
      rw [if_pos rfl, List.length_cons]
      simp only [fileStep_scanned_const]
      simp
      omega

/-- C1 (amended): resuming with the pause flag down re-enters at
destination indexing and then continues the per-file pass from exactly
the saved cursor, skipping files of absorbed folders: the folder report
and the absorbed-folder set are returned exactly as saved (no folder
group is re-checked or re-merged and no merge entry is re-recorded), the
run reaches the terminal completion event, and the scanned counter grows
by exactly the number of files from the saved cursor onward that are not
covered by the absorbed-folder set. -/
theorem resumeRun_continues_without_replay (st : RunState) (fs : ModelFS)
    (dest : FilePath2) (extensions : List String) (t : Nat) :
    (resumeRun st fs dest extensions noPause t).state.folderReport = st.folderReport ∧
    (resumeRun st fs dest extensions noPause t).state.copiedFolders = st.copiedFolders ∧
    (resumeRun st fs dest extensions noPause t).completed = true ∧
    (resumeRun st fs dest extensions noPause t).state.stats.scanned =
      st.stats.scanned +
        (((st.fileList.drop st.currentIndex).filter
          (fun f => !((processedFilesOf st.copiedFolders st.fileList).contains f.path))).length) := by
  unfold resumeRun
  rcases filePassGo_noPause false dest
    (destIndexKeysResume fs dest noPause t).fst
    (processedFilesOf st.copiedFolders st.fileList)
    (st.fileList.drop st.currentIndex) st.currentIndex fs st.deduplicationMap
    st.stats st.currentIndex
    (destSignaturesOf fs dest (extensions.map toLowerStr) noPause
      (destIndexKeysResume fs dest noPause t).snd).snd
    with ⟨h1, h2, h3⟩
  exact ⟨rfl, rfl, rfl, h3⟩

/-- Equation: out of fuel. -/
theorem mergeGo_zero (fs : ModelFS) (names : List String) (src dst : FilePath2)
    (map : List ContentKey) (sched : Nat → Bool) (t : Nat) :
    mergeGo 0 fs names src dst map sched t = ⟨fs, map, t, []⟩ := rfl

/-- Equation: no entries left. -/
theorem mergeGo_nil (fuel : Nat) (fs : ModelFS) (src dst : FilePath2)
    (map : List ContentKey) (sched : Nat → Bool) (t : Nat) :
    mergeGo (fuel + 1) fs [] src dst map sched t = ⟨fs, map, t, []⟩ := rfl

/-- Equation: pause observed at the entry check. -/
theorem mergeGo_cons_paused (fuel : Nat) (fs : ModelFS) (n : String) (ns : List String)
    (src dst : FilePath2) (map : List ContentKey) (sched : Nat → Bool) (t : Nat)
    (hs : sched t = true) :
    mergeGo (fuel + 1) fs (n :: ns) src dst map sched t = ⟨fs, map, t + 1, []⟩ := by
  conv_lhs => unfold mergeGo
  dsimp only
  rw [hs]
  simp

/-- Equation: subdirectory entry. -/
theorem mergeGo_cons_dir (fuel : Nat) (fs : ModelFS) (n : String) (ns : List String)
    (src dst : FilePath2) (map : List ContentKey) (sched : Nat → Bool) (t : Nat)
    (hs : sched t = false) (hl : fsLookup fs (src ++ [n]) = none) :
    mergeGo (fuel + 1) fs (n :: ns) src dst map sched t =
      ⟨(mergeGo fuel
          (mergeGo fuel fs (fsChildNames fs (src ++ [n])) (src ++ [n]) (dst ++ [n]) map sched (t + 1)).fs
          ns src dst
          (mergeGo fuel fs (fsChildNames fs (src ++ [n])) (src ++ [n]) (dst ++ [n]) map sched (t + 1)).map
          sched
          (mergeGo fuel fs (fsChildNames fs (src ++ [n])) (src ++ [n]) (dst ++ [n]) map sched (t + 1)).t).fs,
        (mergeGo fuel
          (mergeGo fuel fs (fsChildNames fs (src ++ [n])) (src ++ [n]) (dst ++ [n]) map sched (t + 1)).fs
          ns src dst
          (mergeGo fuel fs (fsChildNames fs (src ++ [n])) (src ++ [n]) (dst ++ [n]) map sched (t + 1)).map
          sched
          (mergeGo fuel fs (fsChildNames fs (src ++ [n])) (src ++ [n]) (dst ++ [n]) map sched (t + 1)).t).map,
        (mergeGo fuel
          (mergeGo fuel fs (fsChildNames fs (src ++ [n])) (src ++ [n]) (dst ++ [n]) map sched (t + 1)).fs
          ns src dst
          (mergeGo fuel fs (fsChildNames fs (src ++ [n])) (src ++ [n]) (dst ++ [n]) map sched (t + 1)).map
          sched
          (mergeGo fuel fs (fsChildNames fs (src ++ [n])) (src ++ [n]) (dst ++ [n]) map sched (t + 1)).t).t,
        (mergeGo fuel fs (fsChildNames fs (src ++ [n])) (src ++ [n]) (dst ++ [n]) map sched (t + 1)).ops ++
        (mergeGo fuel
          (mergeGo fuel fs (fsChildNames fs (src ++ [n])) (src ++ [n]) (dst ++ [n]) map sched (t + 1)).fs
          ns src dst
          (mergeGo fuel fs (fsChildNames fs (src ++ [n])) (src ++ [n]) (dst ++ [n]) map sched (t + 1)).map
          sched
          (mergeGo fuel fs (fsChildNames fs (src ++ [n])) (src ++ [n]) (dst ++ [n]) map sched (t + 1)).t).ops⟩ := by
  conv_lhs => unfold mergeGo
  dsimp only
  rw [hs]
  simp only [Bool.false_eq_true, if_false]
  rw [hl]

/-- Equation: file entry whose hash is cancelled by the pause. -/
theorem mergeGo_cons_hash_paused (fuel : Nat) (fs : ModelFS) (n : String) (ns : List String)
    (src dst : FilePath2) (map : List ContentKey) (sched : Nat → Bool) (t : Nat)
    (c : Content) (hs : sched t = false) (hl : fsLookup fs (src ++ [n]) = some c)
    (hp : sched (t + 1) = true) :
    mergeGo (fuel + 1) fs (n :: ns) src dst map sched t =
      mergeGo fuel fs ns src dst map sched (t + 1 + 1) := by
  conv_lhs => unfold mergeGo
  dsimp only
  rw [hs]
  simp only [Bool.false_eq_true, if_false]
  rw [hl]
  dsimp only [hashFileM]
  rw [hp]
  simp

/-- Equation: file entry whose ContentKey is already in the map. -/
theorem mergeGo_cons_dup (fuel : Nat) (fs : ModelFS) (n : String) (ns : List String)
    (src dst : FilePath2) (map : List ContentKey) (sched : Nat → Bool) (t : Nat)
    (c : Content) (hs : sched t = false) (hl : fsLookup fs (src ++ [n]) = some c)
    (hp : sched (t + 1) = false)
    (hcont : map.contains ⟨c.length, hashContent c⟩ = true) :
    mergeGo (fuel + 1) fs (n :: ns) src dst map sched t =
      mergeGo fuel fs ns src dst map sched (t + 1 + 1) := by
  conv_lhs => unfold mergeGo
  dsimp only
  rw [hs]
  simp only [Bool.false_eq_true, if_false]
  rw [hl]
  dsimp only [hashFileM]
  rw [hp]
  simp only [Bool.false_eq_true, if_false]
  rw [hcont]
  simp

/-- Equation: file entry copied and registered. -/
theorem mergeGo_cons_copy (fuel : Nat) (fs : ModelFS) (n : String) (ns : List String)
    (src dst : FilePath2) (map : List ContentKey) (sched : Nat → Bool) (t : Nat)
    (c : Content) (hs : sched t = false) (hl : fsLookup fs (src ++ [n]) = some c)
    (hp : sched (t + 1) = false)
    (hcont : map.contains ⟨c.length, hashContent c⟩ = false) :
    mergeGo (fuel + 1) fs (n :: ns) src dst map sched t =
      ⟨(mergeGo fuel (fsSetFile fs (dst ++ [n]) c) ns src dst
          (⟨c.length, hashContent c⟩ :: map) sched (t + 1 + 1)).fs,
        (mergeGo fuel (fsSetFile fs (dst ++ [n]) c) ns src dst
          (⟨c.length, hashContent c⟩ :: map) sched (t + 1 + 1)).map,
        (mergeGo fuel (fsSetFile fs (dst ++ [n]) c) ns src dst
          (⟨c.length, hashContent c⟩ :: map) sched (t + 1 + 1)).t,
        ⟨src ++ [n], dst ++ [n], ⟨c.length, hashContent c⟩⟩ ::
        (mergeGo fuel (fsSetFile fs (dst ++ [n]) c) ns src dst
          (⟨c.length, hashContent c⟩ :: map) sched (t + 1 + 1)).ops⟩ := by
  conv_lhs => unfold mergeGo
  dsimp only
  rw [hs]
  simp only [Bool.false_eq_true, if_false]
  rw [hl]
  dsimp only [hashFileM]
  rw [hp]
  simp only [Bool.false_eq_true, if_false]
  rw [hcont]
  simp

/-- Invariant of the merge entry loop: no copy ever targets a ContentKey
already in the supplied map, the copied keys are pairwise distinct, the
map only grows, and every copied key ends up in the final map. -/
theorem mergeGo_inv (fuel : Nat) :
    ∀ (fs : ModelFS) (names : List String) (src dst : FilePath2)
      (map : List ContentKey) (sched : Nat → Bool) (t : Nat),
    (∀ op ∈ (mergeGo fuel fs names src dst map sched t).ops, op.key ∉ map) ∧
    (((mergeGo fuel fs names src dst map sched t).ops.map CopyOp.key).Nodup) ∧
    (∀ k ∈ map, k ∈ (mergeGo fuel fs names src dst map sched t).map) ∧
    (∀ op ∈ (mergeGo fuel fs names src dst map sched t).ops,
      op.key ∈ (mergeGo fuel fs names src dst map sched t).map) := by
  induction fuel with
  | zero =>
    intro fs names src dst map sched t
    rw [mergeGo_zero]
    exact ⟨by simp, by simp, by simp, by simp⟩
  | succ fuel ih =>
    intro fs names src dst map sched t
    cases names with
    | nil =>
      rw [mergeGo_nil]
      exact ⟨by simp, by simp, by simp, by simp⟩
    | cons n ns =>
      by_cases hs : sched t = true
      · rw [mergeGo_cons_paused fuel fs n ns src dst map sched t hs]
        exact ⟨by simp, by simp, by simp, by simp⟩
      · rw [Bool.not_eq_true] at hs
        cases hl : fsLookup fs (src ++ [n]) with
        | none =>
          rw [mergeGo_cons_dir fuel fs n ns src dst map sched t hs hl]
          obtain ⟨a1, b1, c1, d1⟩ :=
            ih fs (fsChildNames fs (src ++ [n])) (src ++ [n]) (dst ++ [n]) map sched (t + 1)
          obtain ⟨a2, b2, c2, d2⟩ :=
            ih (mergeGo fuel fs (fsChildNames fs (src ++ [n])) (src ++ [n]) (dst ++ [n]) map sched (t + 1)).fs
              ns src dst
              (mergeGo fuel fs (fsChildNames fs (src ++ [n])) (src ++ [n]) (dst ++ [n]) map sched (t + 1)).map
              sched
              (mergeGo fuel fs (fsChildNames fs (src ++ [n])) (src ++ [n]) (dst ++ [n]) map sched (t + 1)).t
          refine ⟨?_, ?_, ?_, ?_⟩
          · intro op hop
            simp only [List.mem_append] at hop
            rcases hop with h | h
            · exact a1 op h
            · intro hmem
              exact a2 op h (c1 op.key hmem)
          · simp only [List.map_append]
            rw [List.nodup_append]
            refine ⟨b1, b2, ?_⟩
            intro x hx1 hx2
            simp only [List.mem_map] at hx1 hx2
            rcases hx1 with ⟨op1, hop1, rfl⟩
            rcases hx2 with ⟨op2, hop2, hk⟩
            exact a2 op2 hop2 (hk ▸ d1 op1 hop1)
          · intro k hk
            exact c2 k (c1 k hk)
          · intro op hop
            simp only [List.mem_append] at hop
            rcases hop with h | h
            · exact c2 op.key (d1 op h)
            · exact d2 op h
        | some c =>
          by_cases hp : sched (t + 1) = true
          · rw [mergeGo_cons_hash_paused fuel fs n ns src dst map sched t c hs hl hp]
            exact ih fs ns src dst map sched (t + 1 + 1)
          · rw [Bool.not_eq_true] at hp
            by_cases hcont : map.contains ⟨c.length, hashContent c⟩ = true
            · rw [mergeGo_cons_dup fuel fs n ns src dst map sched t c hs hl hp hcont]
              exact ih fs ns src dst map sched (t + 1 + 1)
            · rw [Bool.not_eq_true] at hcont
              rw [mergeGo_cons_copy fuel fs n ns src dst map sched t c hs hl hp hcont]
              have hkey : (⟨c.length, hashContent c⟩ : ContentKey) ∉ map := by
                simpa using hcont
              obtain ⟨a, b, cc, d⟩ :=
                ih (fsSetFile fs (dst ++ [n]) c) ns src dst
                  (⟨c.length, hashContent c⟩ :: map) sched (t + 1 + 1)
              refine ⟨?_, ?_, ?_, ?_⟩
              · intro op hop
                simp only [List.mem_cons] at hop
                rcases hop with rfl | h
                · exact hkey
                · intro hmem
                  exact a op h (List.mem_cons_of_mem _ hmem)
              · simp only [List.map_cons]
                rw [List.nodup_cons]
                refine ⟨?_, b⟩
                intro hx
                simp only [List.mem_map] at hx
                rcases hx with ⟨op1, hop1, hk⟩
                exact a op1 hop1 (hk ▸ List.mem_cons_self _ _)
              · intro k hk
                exact cc k (List.mem_cons_of_mem _ hk)
              · intro op hop
                simp only [List.mem_cons] at hop
                rcases hop with rfl | h
                · exact cc _ (List.mem_cons_self _ _)
                · exact d op h

/-- C9: the content-aware recursive merge never copies a file whose
ContentKey is already present in the supplied ContentKey map; every
copied file's key is present in the map from the moment of its copy
onward (in particular in the final map); and the keys of the copies of
one whole recursive merge are pairwise distinct — every ContentKey is
copied at most once per map. -/
theorem mergeFolderRecursive_copies_each_key_once (fuel : Nat) (fs : ModelFS)
    (src dst : FilePath2) (map : List ContentKey) (sched : Nat → Bool) (t : Nat)
    (op : CopyOp)
    (hop : op ∈ (mergeFolderRecursive fuel fs src dst map sched t).ops) :
    op.key ∉ map ∧
    op.key ∈ (mergeFolderRecursive fuel fs src dst map sched t).map ∧
    ((mergeFolderRecursive fuel fs src dst map sched t).ops.map CopyOp.key).Nodup := by
  unfold mergeFolderRecursive at hop ⊢
  obtain ⟨a, b, c, d⟩ := mergeGo_inv fuel fs (fsChildNames fs src) src dst map sched t
  exact ⟨a op hop, d op hop, b⟩

/-- C9 witness: the theorem applied to the concrete merge of `S` into
`T` with `B` pre-registered: the copy of `a` carries a key absent from
the supplied map and registered afterwards, and the copied keys are
distinct. -/
theorem mergeFolderRecursive_copies_each_key_once_witness :
    (⟨1, "A"⟩ : ContentKey) ∉ [(⟨1, "B"⟩ : ContentKey)] ∧
    (⟨1, "A"⟩ : ContentKey) ∈ mergeW.map ∧
    (mergeW.ops.map CopyOp.key).Nodup := by
  have h := mergeFolderRecursive_copies_each_key_once 5 fsMergeW ["S"] ["T"]
    [⟨1, "B"⟩] noPause 0 ⟨["S", "a"], ["T", "a"], ⟨1, "A"⟩⟩ (by decide)
  exact ⟨h.1, h.2.1, h.2.2⟩

/-- The comparison underlying the signature sort is total. -/
theorem strLeAux_total : ∀ as bs : List Char,
    strLeAux as bs = true ∨ strLeAux bs as = true := by
  intro as
  induction as with
  | nil => intro bs; left; rfl
  | cons a as ih =>
    intro bs
    cases bs with
    | nil => right; rfl
    | cons b bs =>
      unfold strLeAux
      by_cases h1 : a.toNat < b.toNat
      · left; simp [h1]
      · by_cases h2 : b.toNat < a.toNat
        · right; simp [h2]
        · rcases ih bs with h | h
          · left; simp [h1, h2, h]
          · right; simp [h1, h2, h]

/-- The comparison underlying the signature sort is transitive. -/
theorem strLeAux_trans : ∀ as bs cs : List Char,
    strLeAux as bs = true → strLeAux bs cs = true → strLeAux as cs = true := by
  intro as
  induction as with
  | nil => intro bs cs _ _; rfl
  | cons a as ih =>
    intro bs cs hab hbc
    cases bs with
    | nil => exact absurd hab (by simp [strLeAux])
    | cons b bs =>
      cases cs with
      | nil => exact absurd hbc (by simp [strLeAux])
      | cons c cs =>
        unfold strLeAux at hab hbc ⊢
        by_cases h1 : a.toNat < b.toNat
        · by_cases h2 : b.toNat < c.toNat
          · simp [show a.toNat < c.toNat by omega]
          · by_cases h3 : c.toNat < b.toNat
            · simp [h2, h3] at hbc
            · simp [show a.toNat < c.toNat by omega]
        · by_cases h2 : b.toNat < a.toNat
          · simp [h1, h2] at hab
          · by_cases h3 : b.toNat < c.toNat
            · simp [show a.toNat < c.toNat by omega]
            · by_cases h4 : c.toNat < b.toNat
              · simp [h3, h4] at hbc
              · have hac1 : ¬ a.toNat < c.toNat := by omega
                have hac2 : ¬ c.toNat < a.toNat := by omega
                simp [h1, h2] at hab
                simp [h3, h4] at hbc
                simp [hac1, hac2]
                exact ih bs cs hab hbc

/-- The comparison underlying the signature sort is antisymmetric. -/
theorem strLeAux_antisymm : ∀ as bs : List Char,
    strLeAux as bs = true → strLeAux bs as = true → as = bs := by
  intro as
  induction as with
  | nil =>
    intro bs _ hba
    cases bs with
    | nil => rfl
    | cons b bs => exact absurd hba (by simp [strLeAux])
  | cons a as ih =>
    intro bs hab hba
    cases bs with
    | nil => exact absurd hab (by simp [strLeAux])
    | cons b bs =>
      unfold strLeAux at hab hba
      by_cases h1 : a.toNat < b.toNat
      · simp [h1, show ¬ b.toNat < a.toNat by omega] at hba
      · by_cases h2 : b.toNat < a.toNat
        · simp [h1, h2] at hab
        · simp [h1, h2] at hab hba
          have heq : a.toNat = b.toNat := by omega
          have : a = b := Char.eq_of_val_eq (UInt32.ext heq)
          rw [this, ih bs hab hba]

/-- The triple comparator is total. -/
theorem sigLe_total (a b : FileSig) : sigLe a b = true ∨ sigLe b a = true :=
  strLeAux_total a.name.data b.name.data

/-- The triple comparator is transitive. -/
theorem sigLe_trans (a b c : FileSig) (h1 : sigLe a b = true) (h2 : sigLe b c = true) :
    sigLe a c = true :=
  strLeAux_trans a.name.data b.name.data c.name.data h1 h2

/-- Two triples each at most the other have equal names. -/
theorem sigLe_antisymm_name (a b : FileSig) (h1 : sigLe a b = true)
    (h2 : sigLe b a = true) : a.name = b.name :=
  String.ext (strLeAux_antisymm a.name.data b.name.data h1 h2)

/-- Inserting into a list permutes the element onto it. -/
theorem insertBy_perm (le : α → α → Bool) (a : α) :
    ∀ l : List α, (insertBy le a l).Perm (a :: l) := by
  intro l
  induction l with
  | nil => exact List.Perm.refl _
  | cons b bs ih =>
    unfold insertBy
    by_cases h : le a b = true
    · rw [h, if_pos rfl]
    · rw [Bool.not_eq_true] at h
      rw [h, if_neg Bool.false_ne_true]
      exact (ih.cons b).trans (List.Perm.swap a b bs)

/-- The stable sort permutes its input. -/
theorem sortBy_perm (le : α → α → Bool) :
    ∀ l : List α, (sortBy le l).Perm l := by
  intro l
  induction l with
  | nil => exact List.Perm.refl _
  | cons a as ih => exact (insertBy_perm le a (sortBy le as)).trans (ih.cons a)

/-- Inserting into a sorted list keeps it sorted, given totality and
transitivity of the comparator. -/
theorem insertBy_pairwise (le : α → α → Bool)
    (htot : ∀ a b, le a b = true ∨ le b a = true)
    (htrans : ∀ a b c, le a b = true → le b c = true → le a c = true) (a : α) :
    ∀ l : List α, l.Pairwise (fun x y => le x y = true) →
      (insertBy le a l).Pairwise (fun x y => le x y = true) := by
  intro l
  induction l with
  | nil => intro _; exact List.pairwise_singleton _ _
  | cons b bs ih =>
    intro h
    rw [List.pairwise_cons] at h
    obtain ⟨hb, hbs⟩ := h
    unfold insertBy
    by_cases hab : le a b = true
    · rw [hab, if_pos rfl]
      rw [List.pairwise_cons]
      refine ⟨?_, List.pairwise_cons.mpr ⟨hb, hbs⟩⟩
      intro x hx
      rcases List.mem_cons.mp hx with rfl | hx
      · exact hab
      · exact htrans a b x hab (hb x hx)
    · rw [Bool.not_eq_true] at hab
      rw [hab, if_neg Bool.false_ne_true]
      rw [List.pairwise_cons]
      refine ⟨?_, ih hbs⟩
      intro x hx
      rcases List.mem_cons.mp ((insertBy_perm le a bs).mem_iff.mp hx) with h | h
      · subst h
        rcases htot x b with h2 | h2
        · rw [h2] at hab; exact absurd hab (by simp)
        · exact h2
      · exact hb x h

/-- The stable sort sorts, given totality and transitivity. -/
theorem sortBy_pairwise (le : α → α → Bool)
    (htot : ∀ a b, le a b = true ∨ le b a = true)
    (htrans : ∀ a b c, le a b = true → le b c = true → le a c = true) :
    ∀ l : List α, (sortBy le l).Pairwise (fun x y => le x y = true) := by
  intro l
  induction l with
  | nil => exact List.Pairwise.nil
  | cons a as ih => exact insertBy_pairwise le htot htrans a (sortBy le as) ih

/-- Canonical form: two triple lists that are permutations of each other
and have pairwise distinct names (as directory entries do) sort to the
same list, hence digest identically. -/
theorem sigDigest_eq_of_perm (l₁ l₂ : List FileSig) (hperm : l₁.Perm l₂)
    (hnodup : (l₁.map FileSig.name).Nodup) : sigDigest l₁ = sigDigest l₂ := by
  have hp : (sortBy sigLe l₁).Perm (sortBy sigLe l₂) :=
    (sortBy_perm sigLe l₁).trans (hperm.trans (sortBy_perm sigLe l₂).symm)
  have hs1 := sortBy_pairwise sigLe sigLe_total sigLe_trans l₁
  have hs2 := sortBy_pairwise sigLe sigLe_total sigLe_trans l₂
  have hn1 : ((sortBy sigLe l₁).map FileSig.name).Nodup :=
    (((sortBy_perm sigLe l₁).map FileSig.name).nodup_iff).mpr hnodup
  have hn2 : ((sortBy sigLe l₂).map FileSig.name).Nodup :=
    ((hp.map FileSig.name).nodup_iff).mp hn1
  have hd1 : (sortBy sigLe l₁).Pairwise (fun a b => a.name ≠ b.name) := by
    rw [List.Nodup, List.pairwise_map] at hn1
    exact hn1
  have hd2 : (sortBy sigLe l₂).Pairwise (fun a b => a.name ≠ b.name) := by
    rw [List.Nodup, List.pairwise_map] at hn2
    exact hn2
  haveI : IsAntisymm FileSig (fun a b => sigLe a b = true ∧ a.name ≠ b.name) :=
    ⟨fun a b hab hba => (hab.2 (sigLe_antisymm_name a b hab.1 hba.1)).elim⟩
  exact List.eq_of_perm_of_sorted hp (hs1.and hd1) (hs2.and hd2)

/-- C7: two folders whose direct files form the same multiset of
`(name, size, content-hash)` triples — names being pairwise distinct
within a directory — produce the same signature digest through
`buildFolderSignature`, regardless of the order in which the filesystem
enumerated the files; and a destination folder signature built from the
same triples by `buildDestinationFolderSignature` equals it as well. -/
theorem buildFolderSignature_order_independent (fs : ModelFS) (A B : FolderInfo)
    (sa sb : Nat → Bool) (ta tb : Nat)
    (hperm : (collectTriples fs A.files sa ta).fst.Perm
      (collectTriples fs B.files sb tb).fst)
    (hnodup : ((collectTriples fs A.files sa ta).fst.map FileSig.name).Nodup) :
    (buildFolderSignature fs A sa ta).fst.hash =
      (buildFolderSignature fs B sb tb).fst.hash ∧
    buildDestinationFolderSignature (collectTriples fs A.files sa ta).fst =
      (buildFolderSignature fs B sb tb).fst.hash := by
  have h := sigDigest_eq_of_perm _ _ hperm hnodup
  exact ⟨h, h⟩

/-- C7 witness: the theorem applied to two concrete folders holding the
same files enumerated in opposite orders: their signatures coincide, and
so does the destination-side signature of the same triples. -/
theorem buildFolderSignature_order_independent_witness :
    (buildFolderSignature fsSigW folderWA noPause 0).fst.hash =
      (buildFolderSignature fsSigW folderWB noPause 0).fst.hash ∧
    buildDestinationFolderSignature (collectTriples fsSigW folderWA.files noPause 0).fst =
      (buildFolderSignature fsSigW folderWB noPause 0).fst.hash :=
  buildFolderSignature_order_independent fsSigW folderWA folderWB noPause noPause 0 0
    (by decide) (by decide)

end FileDedupTool
